import Mathlib

/-!
Verification of the contributivity-measurement core of
`distributed-learning-contributivity` against `src/simulation_run.py` and the
specification of the estimator modules it invokes.  Coalition values are
modelled over `ℚ` (exact rational arithmetic stands in for the Python floats).
-/

namespace Spec2Proof

/-! ## Exact Shapley estimator

Modelled from the spec: the body of `contributivity_measures.compute_SV` is not
under `src/` (only its call site at `simulation_run.py` lines 109-117).  Spec
§4.3 defines the estimator by the permutation form
`φ_i = (1/n!) Σ_{permutations π} [value(coalition of π up to and including i)
− value(coalition of π before i)]`. -/

/-- Modelled from the spec: the running coalition of a permutation walk, i.e.
the set of nodes placed at the first `k` positions of the permutation `π`
(position `↦` node). -/
def coalitionUpTo (n : ℕ) (π : Equiv.Perm (Fin n)) (k : ℕ) : Finset (Fin n) :=
  Finset.univ.filter (fun j => (π.symm j : ℕ) < k)

/-- Modelled from the spec: the marginal contribution of node `i` in the walk
of permutation `π`: value of the walk coalition up to and including `i` minus
the value of the walk coalition just before `i` joins. -/
def nodeMarginal (n : ℕ) (v : Finset (Fin n) → ℚ) (π : Equiv.Perm (Fin n))
    (i : Fin n) : ℚ :=
  v (coalitionUpTo n π ((π.symm i : ℕ) + 1)) - v (coalitionUpTo n π (π.symm i))

/-- Modelled from the spec: the exact Shapley value of node `i` for the
coalition-value function `v`, averaging the marginal contribution of `i` over
all `n!` permutations. -/
def shapleyValue (n : ℕ) (v : Finset (Fin n) → ℚ) (i : Fin n) : ℚ :=
  (∑ π : Equiv.Perm (Fin n), nodeMarginal n v π i) / (Nat.factorial n : ℚ)

lemma coalitionUpTo_zero (n : ℕ) (π : Equiv.Perm (Fin n)) :
    coalitionUpTo n π 0 = ∅ := by
  unfold coalitionUpTo
  apply Finset.filter_false_of_mem
  intro j _
  omega

lemma coalitionUpTo_top (n : ℕ) (π : Equiv.Perm (Fin n)) :
    coalitionUpTo n π n = Finset.univ := by
  unfold coalitionUpTo
  apply Finset.filter_true_of_mem
  intro j _
  exact (π.symm j).isLt

/-- The marginal contributions of one permutation walk telescope to
`v(univ) - v(∅)`. -/
lemma sum_nodeMarginal (n : ℕ) (v : Finset (Fin n) → ℚ) (π : Equiv.Perm (Fin n)) :
    ∑ i : Fin n, nodeMarginal n v π i = v Finset.univ - v ∅ := by
  have hre : ∑ i : Fin n, nodeMarginal n v π i
      = ∑ k : Fin n, (v (coalitionUpTo n π ((k : ℕ) + 1)) - v (coalitionUpTo n π (k : ℕ))) := by
    have := Equiv.sum_comp π.symm
      (fun k : Fin n => v (coalitionUpTo n π ((k : ℕ) + 1)) - v (coalitionUpTo n π (k : ℕ)))
    simpa [nodeMarginal] using this
  rw [hre, Fin.sum_univ_eq_sum_range
      (fun k => v (coalitionUpTo n π (k + 1)) - v (coalitionUpTo n π k)) n,
    Finset.sum_range_sub (fun k => v (coalitionUpTo n π k)) n,
    coalitionUpTo_zero, coalitionUpTo_top]

/-- Claim C1: for every node count and every coalition-value function, the
Shapley score vector returned by the exact estimator sums, over all nodes, to
value(full coalition) minus value(empty coalition).  Over `ℚ` the efficiency
axiom holds exactly, hence in particular within any floating-point
tolerance. -/
theorem shapley_efficiency (n : ℕ) (v : Finset (Fin n) → ℚ) :
    ∑ i : Fin n, shapleyValue n v i = v Finset.univ - v ∅ := by
  have hfac : (Nat.factorial n : ℚ) ≠ 0 := by
    exact_mod_cast Nat.factorial_ne_zero n
  calc ∑ i : Fin n, shapleyValue n v i
      = (∑ i : Fin n, ∑ π : Equiv.Perm (Fin n), nodeMarginal n v π i)
          / (Nat.factorial n : ℚ) := by
        simp [shapleyValue, Finset.sum_div]
    _ = (∑ π : Equiv.Perm (Fin n), ∑ i : Fin n, nodeMarginal n v π i)
          / (Nat.factorial n : ℚ) := by
        rw [Finset.sum_comm]
    _ = (∑ _π : Equiv.Perm (Fin n), (v Finset.univ - v ∅))
          / (Nat.factorial n : ℚ) := by
        simp only [sum_nodeMarginal]
    _ = v Finset.univ - v ∅ := by
        rw [Finset.sum_const, Finset.card_univ, Fintype.card_perm,
          Fintype.card_fin, nsmul_eq_mul]
        field_simp

/-! ## The method loop of `run_scenario` (`src/simulation_run.py` lines 104-149)

`run_scenario` iterates over `current_scenario.methods`; each method name
selects one estimator, whose outputs are packed into a `score_dict` mapping a
score label to a `(scores, variances)` pair; one `Contributivity` record is
then built per `score_dict` entry, all with the same elapsed time
`np.round(end - start)`, and each record is appended to the scenario. -/

/-- The three method names recognised by the dispatch of `run_scenario`. -/
inductive Method where
  | shapley
  | independant
  | tmcs
  deriving DecidableEq

/-- The keys of the score dictionaries built by `run_scenario`. -/
inductive ScoreLabel where
  | shapleyValues
  | independantRaw
  | independantAdditive
  | tmcsValues
  deriving DecidableEq

/-- The outputs of the three estimator calls for one scenario, abstracted:
the pairs returned by `compute_SV`, `compute_independent_scores` and
`truncated_MC` (whose bodies live outside `src/`). -/
structure MeasureOutputs where
  svScores : List ℚ
  svVar : List ℚ
  indepRaw : List ℚ
  indepAdditive : List ℚ
  tmcsSv : List ℚ
  tmcsStdSv : List ℚ
  deriving DecidableEq

/-- A `contributivity.Contributivity` record as constructed at
`simulation_run.py` lines 143-145: label, score vector, variance vector and
rounded elapsed time. -/
structure ContributivityRec where
  label : ScoreLabel
  scores : List ℚ
  scoresVar : List ℚ
  computationTime : ℤ
  deriving DecidableEq

/-- NumPy's `np.round` at zero decimals: round to the nearest integer, ties to
the even integer. -/
def npRound (q : ℚ) : ℤ :=
  if q - ⌊q⌋ < 1 / 2 then ⌊q⌋
  else if 1 / 2 < q - ⌊q⌋ then ⌊q⌋ + 1
  else if ⌊q⌋ % 2 = 0 then ⌊q⌋ else ⌊q⌋ + 1

/-- The `score_dict` built for each method branch of `run_scenario`
(lines 107-138): Shapley and TMCS each yield one entry; `Independant scores`
yields a raw and an additive entry whose variance vectors are
`np.repeat(0.0, len(scores))`. -/
def scoreDict (m : Method) (out : MeasureOutputs) :
    List (ScoreLabel × (List ℚ × List ℚ)) :=
  match m with
  | Method.shapley => [(ScoreLabel.shapleyValues, (out.svScores, out.svVar))]
  | Method.independant =>
      [(ScoreLabel.independantRaw,
          (out.indepRaw, List.replicate out.indepRaw.length 0)),
       (ScoreLabel.independantAdditive,
          (out.indepAdditive, List.replicate out.indepAdditive.length 0))]
  | Method.tmcs => [(ScoreLabel.tmcsValues, (out.tmcsSv, out.tmcsStdSv))]

/-- The records built for one method (the `for score_method in score_dict`
loop, lines 141-145): one `Contributivity` per `score_dict` entry, each with
elapsed time `np.round(end - start)`. -/
def methodRecords (m : Method) (out : MeasureOutputs) (elapsed : ℚ) :
    List ContributivityRec :=
  (scoreDict m out).map (fun e => ⟨e.1, e.2.1, e.2.2, npRound elapsed⟩)

/-- The scenario's result collection after the method loop of `run_scenario`:
every record of every executed method is appended via
`current_scenario.append_contributivity`. -/
def runScenarioRecords (out : Method → MeasureOutputs) (elapsed : Method → ℚ) :
    List Method → List ContributivityRec
  | [] => []
  | m :: rest =>
      methodRecords m (out m) (elapsed m) ++ runScenarioRecords out elapsed rest

/-- The keyword arguments of a `truncated_MC` invocation. -/
structure TMCSArgs where
  sv_accuracy : ℚ
  alpha : ℚ
  contrib_accuracy : ℚ
  deriving DecidableEq

/-- The arguments `run_scenario` passes to `truncated_MC`
(`simulation_run.py` lines 133-136). -/
def runScenarioTMCSCall : TMCSArgs := ⟨0.01, 0.9, 0.05⟩

/-- A concrete estimator output, used to instantiate hypothesis-bearing
theorems at explicit inputs. -/
def sampleOut : MeasureOutputs := ⟨[1], [0], [1], [1], [1], [0]⟩

/-- Rounding to the nearest integer with ties to even never moves a value by
more than `1/2`. -/
lemma npRound_dist (q : ℚ) : |(npRound q : ℚ) - q| ≤ 1 / 2 := by
  have h0 : ((⌊q⌋ : ℤ) : ℚ) ≤ q := Int.floor_le q
  have h1 : q < (⌊q⌋ : ℤ) + 1 := Int.lt_floor_add_one q
  unfold npRound
  split_ifs with h2 h3 h4 <;> rw [abs_le] <;> constructor <;> push_cast at * <;>
    linarith

/-- Claim C4: `run_scenario` invokes `truncated_MC` with the spec's recognized
configuration defaults: `sv_accuracy = 0.01`, `alpha = 0.9` and
`contrib_accuracy = 0.05`. -/
theorem truncated_MC_call_defaults :
    runScenarioTMCSCall.sv_accuracy = 1 / 100 ∧
    runScenarioTMCSCall.alpha = 9 / 10 ∧
    runScenarioTMCSCall.contrib_accuracy = 5 / 100 := by
  refine ⟨?_, ?_, ?_⟩ <;> norm_num [runScenarioTMCSCall]

/-- Claim C6 counterexample: on a concrete scenario run, the
`Independant scores` method creates two `Contributivity` records (raw and
additive), not exactly one. -/
theorem independant_two_records :
    (methodRecords Method.independant sampleOut 0).length ≠ 1 := by
  simp [methodRecords, scoreDict]

/-- Claim C6 (amended): each executed method creates one `Contributivity`
record per entry of its score dictionary — one for `Shapley values`, one for
`TMCS values`, and two for `Independant scores` (raw and additive) — and
every created record is appended to the scenario's result collection. -/
theorem records_per_method_appended (methods : List Method)
    (out : Method → MeasureOutputs) (elapsed : Method → ℚ) :
    (∀ o e, (methodRecords Method.shapley o e).length = 1
        ∧ (methodRecords Method.independant o e).length = 2
        ∧ (methodRecords Method.tmcs o e).length = 1) ∧
    ∀ m ∈ methods, ∀ r ∈ methodRecords m (out m) (elapsed m),
      r ∈ runScenarioRecords out elapsed methods := by
  constructor
  · intro o e
    exact ⟨rfl, rfl, rfl⟩
  · intro m hm r hr
    induction methods with
    | nil => simp at hm
    | cons a rest ih =>
      rcases List.mem_cons.mp hm with h | h
      · subst h
        exact List.mem_append.mpr (Or.inl hr)
      · exact List.mem_append.mpr (Or.inr (ih h))

/-- Claim C6 witness: in a one-method scenario running `Independant scores`,
the raw record the method creates is in the scenario's result collection. -/
theorem records_per_method_appended_witness :
    (⟨ScoreLabel.independantRaw, [1], List.replicate 1 0, npRound 0⟩ :
        ContributivityRec) ∈
      runScenarioRecords (fun _ => sampleOut) (fun _ => 0)
        [Method.independant] :=
  (records_per_method_appended [Method.independant] (fun _ => sampleOut)
      (fun _ => 0)).2
    Method.independant (by simp)
    ⟨ScoreLabel.independantRaw, [1], List.replicate 1 0, npRound 0⟩
    (by simp [methodRecords, scoreDict, sampleOut])

/-- Claim C8: every record the `Independant scores` method produces (raw and
additive) carries an all-zero variance vector whose length equals the length
of its score vector. -/
theorem independant_variance_zero (out : MeasureOutputs) (e : ℚ) :
    ∀ r ∈ methodRecords Method.independant out e,
      r.scoresVar.length = r.scores.length ∧ ∀ x ∈ r.scoresVar, x = 0 := by
  intro r hr
  have h : r = ⟨ScoreLabel.independantRaw, out.indepRaw,
        List.replicate out.indepRaw.length 0, npRound e⟩
      ∨ r = ⟨ScoreLabel.independantAdditive, out.indepAdditive,
        List.replicate out.indepAdditive.length 0, npRound e⟩ := by
    simpa [methodRecords, scoreDict] using hr
  rcases h with h | h <;> subst h <;>
    exact ⟨List.length_replicate _ _, fun x hx => List.eq_of_mem_replicate hx⟩

/-- Claim C8 witness: the raw record of a concrete `Independant scores` run
has a zero variance vector of the score vector's length. -/
theorem independant_variance_zero_witness :
    (⟨ScoreLabel.independantRaw, [1], List.replicate 1 0, npRound 0⟩ :
        ContributivityRec).scoresVar.length =
      (⟨ScoreLabel.independantRaw, [1], List.replicate 1 0, npRound 0⟩ :
        ContributivityRec).scores.length ∧
    ∀ x ∈ (⟨ScoreLabel.independantRaw, [1], List.replicate 1 0, npRound 0⟩ :
        ContributivityRec).scoresVar, x = 0 :=
  independant_variance_zero sampleOut 0
    ⟨ScoreLabel.independantRaw, [1], List.replicate 1 0, npRound 0⟩
    (by simp [methodRecords, scoreDict, sampleOut])

/-- Claim C9: every record built for one method carries the same elapsed
time, namely `np.round(end - start)` — the method's wall-clock duration
rounded to the nearest integer (ties to even), which differs from the exact
duration by at most `1/2`. -/
theorem method_elapsed_rounded (m : Method) (out : MeasureOutputs) (e : ℚ) :
    (∀ r ∈ methodRecords m out e, r.computationTime = npRound e) ∧
    |(npRound e : ℚ) - e| ≤ 1 / 2 := by
  refine ⟨?_, npRound_dist e⟩
  intro r hr
  cases m <;> simp [methodRecords, scoreDict] at hr
  · subst hr; rfl
  · rcases hr with h | h <;> subst h <;> rfl
  · subst hr; rfl

/-- Claim C9 witness: on a concrete `Shapley values` run with elapsed time
`0`, the record's stored time is `npRound 0` and that rounding is within
`1/2` of the true duration. -/
theorem method_elapsed_rounded_witness :
    (⟨ScoreLabel.shapleyValues, [1], [0], npRound 0⟩ :
        ContributivityRec).computationTime = npRound 0 ∧
    |((npRound 0 : ℤ) : ℚ) - 0| ≤ 1 / 2 :=
  ⟨(method_elapsed_rounded Method.shapley sampleOut 0).1
      ⟨ScoreLabel.shapleyValues, [1], [0], npRound 0⟩
      (by simp [methodRecords, scoreDict, sampleOut]),
    (method_elapsed_rounded Method.shapley sampleOut 0).2⟩

/-! ## TMCS sampling-loop termination

Modelled from the spec: the body of `contributivity_measures.truncated_MC` is
not under `src/` (only its call site at lines 133-136).  Spec §4.4/§5/§7: the
sampling loop repeats permutation rounds until a confidence-based stopping
criterion fires or a hard iteration cap is reached, and always returns a
best-effort result together with a "did not fully converge" flag. -/

/-- The value a TMCS run returns: the final sampling state (running per-node
accumulators) and whether the confidence criterion fired before the cap. -/
structure TMCSOutcome (σ : Type) where
  state : σ
  converged : Bool
  deriving DecidableEq

/-- Modelled from the spec: the TMCS sampling loop.  `stepFn` performs one
permutation round (draw, walk, truncate, record marginals), `stop` is the
confidence-based stopping criterion recomputed after each round, and the
fuel argument is the hard iteration cap. -/
def tmcsLoop {σ : Type} (stepFn : σ → σ) (stop : σ → Bool) :
    ℕ → σ → TMCSOutcome σ
  | 0, s => ⟨s, false⟩
  | cap + 1, s =>
      if stop s then ⟨s, true⟩ else tmcsLoop stepFn stop cap (stepFn s)

/-- The number of permutation rounds the TMCS loop actually executes. -/
def tmcsIters {σ : Type} (stepFn : σ → σ) (stop : σ → Bool) : ℕ → σ → ℕ
  | 0, _ => 0
  | cap + 1, s =>
      if stop s then 0 else tmcsIters stepFn stop cap (stepFn s) + 1

/-- Claim C2: even when the stopping criterion never fires (for example with a
degenerate oracle returning the same score for every coalition, so the
zero-variance signal never satisfies the confidence test), the TMCS loop
terminates at the hard iteration cap, having run exactly `cap` rounds, and
returns the best-effort state with the `converged` flag cleared rather than
failing or looping forever. -/
theorem tmcs_cap_terminates {σ : Type} (stepFn : σ → σ) (stop : σ → Bool)
    (cap : ℕ) (s : σ) (h : ∀ t, stop t = false) :
    tmcsLoop stepFn stop cap s = ⟨stepFn^[cap] s, false⟩ ∧
    tmcsIters stepFn stop cap s ≤ cap := by
  induction cap generalizing s with
  | zero => exact ⟨rfl, Nat.le_refl 0⟩
  | succ n ih =>
    have hs := h s
    refine ⟨?_, ?_⟩
    · rw [tmcsLoop, hs, if_neg (by simp), (ih (stepFn s)).1,
        Function.iterate_succ_apply]
    · rw [tmcsIters, hs, if_neg (by simp)]
      exact Nat.succ_le_succ (ih (stepFn s)).2

/-- Claim C2 witness: a concrete loop whose stopping criterion never fires
stops after exactly its cap of 3 rounds with the non-converged flag. -/
theorem tmcs_cap_terminates_witness :
    tmcsLoop Nat.succ (fun _ => false) 3 0 = ⟨Nat.succ^[3] 0, false⟩ ∧
    tmcsIters Nat.succ (fun _ => false) 3 0 ≤ 3 :=
  tmcs_cap_terminates Nat.succ (fun _ => false) 3 0 (fun _ => rfl)

/-! ## Independent-score estimator

Modelled from the spec: the body of
`contributivity_measures.compute_independent_scores` is not under `src/`
(only its call site at lines 121-128).  Spec §4.2: it returns a raw vector of
singleton scores and an additive vector, each raw score normalized so that
the vector sums to the externally supplied federated score while preserving
relative proportions, i.e. `additive_i = raw_i / Σ raw * federated_score`. -/

/-- Modelled from the spec: the pair `(raw, additive)` returned by
`compute_independent_scores`. -/
def computeIndependentScores (raw : List ℚ) (federatedScore : ℚ) :
    List ℚ × List ℚ :=
  (raw, raw.map (fun s => s / raw.sum * federatedScore))

lemma sum_map_mul (l : List ℚ) (c : ℚ) :
    (l.map (fun s => s * c)).sum = l.sum * c := by
  induction l with
  | nil => simp
  | cons a t ih => simp [ih, add_mul]

lemma getD_map_mul (l : List ℚ) (c : ℚ) (i : ℕ) :
    (l.map (fun s => s * c)).getD i 0 = l.getD i 0 * c := by
  rcases Nat.lt_or_ge i l.length with h | h
  · rw [List.getD_eq_getElem _ _ (by simpa using h), List.getD_eq_getElem _ _ h,
      List.getElem_map]
  · rw [List.getD_eq_default _ _ (by simpa using h), List.getD_eq_default _ _ h,
      zero_mul]

/-- Claim C3 counterexample: for the all-zero raw score vector with federated
score `1`, the division by the zero sum makes the additive vector fail to sum
to the federated score (in the rational model `0/0 = 0`, so the additive sum
is `0`; NumPy produces NaN there, which likewise differs from `1`). -/
theorem independent_scores_zero_sum_cex :
    ((computeIndependentScores [0, 0] 1).2).sum ≠ 1 := by
  norm_num [computeIndependentScores]

/-- Claim C3 (amended): whenever the raw singleton scores do not sum to zero,
`compute_independent_scores` returns the raw vector unchanged together with
an additive vector that preserves the relative proportions of the raw scores
(equal cross products at every pair of indices) and sums exactly to the
externally supplied federated score. -/
theorem independent_scores_additive (raw : List ℚ) (fed : ℚ)
    (h : raw.sum ≠ 0) :
    (computeIndependentScores raw fed).1 = raw ∧
    ((computeIndependentScores raw fed).2).sum = fed ∧
    ∀ i j : ℕ,
      (computeIndependentScores raw fed).2.getD i 0 * raw.getD j 0 =
        (computeIndependentScores raw fed).2.getD j 0 * raw.getD i 0 := by
  have hfun : (fun s => s / raw.sum * fed) = (fun s : ℚ => s * (fed / raw.sum)) :=
    funext fun s => by ring
  have hmap : (computeIndependentScores raw fed).2 =
      raw.map (fun s => s * (fed / raw.sum)) := by
    show raw.map (fun s => s / raw.sum * fed) = raw.map (fun s => s * (fed / raw.sum))
    rw [hfun]
  refine ⟨rfl, ?_, ?_⟩
  · rw [hmap, sum_map_mul, mul_comm, div_mul_cancel₀ _ h]
  · intro i j
    rw [hmap, getD_map_mul, getD_map_mul]
    ring

/-- Claim C3 witness: for raw scores `[1, 3]` and federated score `8`, the
additive vector sums to `8` and cross products at indices `0, 1` agree. -/
theorem independent_scores_additive_witness :
    (computeIndependentScores [1, 3] 8).1 = [1, 3] ∧
    ((computeIndependentScores [1, 3] 8).2).sum = 8 ∧
    (computeIndependentScores [1, 3] 8).2.getD 0 0 *
        ([1, 3] : List ℚ).getD 1 0 =
      (computeIndependentScores [1, 3] 8).2.getD 1 0 *
        ([1, 3] : List ℚ).getD 0 0 := by
  have h := independent_scores_additive [1, 3] 8 (by norm_num)
  exact ⟨h.1, h.2.1, h.2.2 0 1⟩

/-! ## Failure propagation through `run_scenario` and `main`

The method loop of `run_scenario` (lines 104-149) and the repeat/scenario
loops of `main` (lines 61-85) contain no exception handler: a
`TrainingFailure` raised by an estimator propagates out of the loop,
following Python's uncaught-exception semantics.  An estimator call is
modelled as an `Except`-valued function; an error short-circuits the rest of
the loop exactly as an uncaught exception would. -/

/-- The method loop of `run_scenario` under Python exception semantics: each
estimator call may raise; with no handler in the loop, the first error aborts
the remaining iterations and surfaces unchanged. -/
def runMethodsE {ε : Type} (f : Method → Except ε (List ContributivityRec)) :
    List Method → Except ε (List ContributivityRec)
  | [] => Except.ok []
  | m :: rest =>
      match f m with
      | Except.error e => Except.error e
      | Except.ok recs =>
          match runMethodsE f rest with
          | Except.error e => Except.error e
          | Except.ok rs => Except.ok (recs ++ rs)

/-- The nested repeat/scenario loops of `main`, also without a handler: an
error escaping one `run_scenario` call aborts the remaining repeats. -/
def runRepeatsE {ε : Type} (f : Method → Except ε (List ContributivityRec)) :
    List (List Method) → Except ε (List ContributivityRec)
  | [] => Except.ok []
  | ms :: rest =>
      match runMethodsE f ms with
      | Except.error e => Except.error e
      | Except.ok recs =>
          match runRepeatsE f rest with
          | Except.error e => Except.error e
          | Except.ok rs => Except.ok (recs ++ rs)

/-- A concrete estimator behaviour: the `Shapley values` method raises a
training failure (error code `0`), every other method succeeds with no
records. -/
def failOracle : Method → Except ℕ (List ContributivityRec) :=
  fun m =>
    match m with
    | Method.shapley => Except.error 0
    | _ => Except.ok []

/-- Claim C5 counterexample: with the `Shapley values` method failing and the
`TMCS values` method healthy (it succeeds when run alone), a scenario running
`[Shapley values, TMCS values]` does not execute the remaining method — the
whole run aborts with the error, and so does the following scenario repeat of
`main`'s loop. -/
theorem failure_aborts_cex :
    runMethodsE failOracle [Method.tmcs] = Except.ok [] ∧
    runMethodsE failOracle [Method.shapley, Method.tmcs] = Except.error 0 ∧
    runRepeatsE failOracle [[Method.shapley, Method.tmcs], [Method.tmcs]] =
      Except.error 0 :=
  ⟨rfl, rfl, rfl⟩

/-- Claim C5 (amended): when one method's computation fails, the exception
propagates uncaught through `run_scenario` and `main`: the failing method and
every later method of the scenario are aborted, no further scenario repeat
executes, and the run surfaces the original error unchanged. -/
theorem failure_aborts (pre post : List Method) (m : Method) {ε : Type}
    (f : Method → Except ε (List ContributivityRec)) (e : ε)
    (rest : List (List Method))
    (hpre : ∀ x ∈ pre, ∃ rs, f x = Except.ok rs)
    (hm : f m = Except.error e) :
    runMethodsE f (pre ++ m :: post) = Except.error e ∧
    runRepeatsE f ((pre ++ m :: post) :: rest) = Except.error e := by
  have h1 : runMethodsE f (pre ++ m :: post) = Except.error e := by
    induction pre with
    | nil => simp [runMethodsE, hm]
    | cons a t ih =>
      obtain ⟨rs, hrs⟩ := hpre a (by simp)
      have ht := ih (fun x hx => hpre x (by simp [hx]))
      simp [runMethodsE, hrs, ht]
  exact ⟨h1, by simp [runRepeatsE, h1]⟩

/-- Claim C5 witness: with a healthy method before the failing one, the run
still aborts with the original error, as does the enclosing repeat loop. -/
theorem failure_aborts_witness :
    runMethodsE failOracle ([Method.tmcs] ++ Method.shapley :: []) =
      Except.error 0 ∧
    runRepeatsE failOracle (([Method.tmcs] ++ Method.shapley :: []) :: [[]]) =
      Except.error 0 :=
  failure_aborts [Method.tmcs] [] Method.shapley failOracle 0 [[]]
    (fun x hx => by
      rcases List.mem_singleton.mp hx with rfl
      exact ⟨[], rfl⟩)
    rfl

/-! ## `Contributivity` record construction

Modelled from the spec: the `contributivity.Contributivity` class body is not
under `src/` (only the construction call at lines 143-145).  Spec §4.5/§7:
construction validates that the score and variance vector lengths match the
node count, failing with a `DimensionMismatch` error on mismatch. -/

/-- The validation failure of record construction. -/
inductive RecordErr where
  | dimensionMismatch
  deriving DecidableEq

/-- Modelled from the spec: the validating `Contributivity` constructor for a
scenario with `n` nodes. -/
def mkContributivity (lbl : ScoreLabel) (n : ℕ) (scores scoresVar : List ℚ)
    (time : ℤ) : Except RecordErr ContributivityRec :=
  if scores.length = n ∧ scoresVar.length = n then
    Except.ok ⟨lbl, scores, scoresVar, time⟩
  else Except.error RecordErr.dimensionMismatch

/-- Claim C7: record construction succeeds exactly when both the score vector
and the variance vector have length equal to the node count; with mismatched
lengths it fails with `DimensionMismatch` and produces no record. -/
theorem mkContributivity_validates (lbl : ScoreLabel) (n : ℕ)
    (scores scoresVar : List ℚ) (time : ℤ) :
    (scores.length = n ∧ scoresVar.length = n →
      mkContributivity lbl n scores scoresVar time =
        Except.ok ⟨lbl, scores, scoresVar, time⟩) ∧
    (¬(scores.length = n ∧ scoresVar.length = n) →
      mkContributivity lbl n scores scoresVar time =
        Except.error RecordErr.dimensionMismatch) := by
  constructor <;> intro h <;> simp [mkContributivity, h]

/-- Claim C7 witness: construction succeeds on matching lengths (one node,
one score, one variance) and fails with `DimensionMismatch` when the same
vectors are validated against a two-node count. -/
theorem mkContributivity_validates_witness :
    mkContributivity ScoreLabel.shapleyValues 1 [1] [0] 0 =
      Except.ok ⟨ScoreLabel.shapleyValues, [1], [0], 0⟩ ∧
    mkContributivity ScoreLabel.shapleyValues 2 [1] [0] 0 =
      Except.error RecordErr.dimensionMismatch :=
  ⟨(mkContributivity_validates ScoreLabel.shapleyValues 1 [1] [0] 0).1
      (by simp),
    (mkContributivity_validates ScoreLabel.shapleyValues 2 [1] [0] 0).2
      (by simp)⟩

/-! ## CSV result persistence of `main` (`src/simulation_run.py` lines 82-84)

`main` opens `results.csv` in append mode once per scenario repeat and calls
`df_results.to_csv(f, header=f.tell() == 0, index=False)`: the header row is
emitted exactly when the append position is `0`, i.e. when the file is
empty.  A CSV file is modelled as its list of lines. -/

/-- A line of `results.csv`: the header row or one data row. -/
inductive CsvLine where
  | headerLine
  | dataLine (row : List ℚ)
  deriving DecidableEq

/-- One append of a scenario's result dataframe (lines 82-83): `to_csv` on a
file opened for append, with the header emitted iff the position
`f.tell()` is `0`. -/
def toCsvAppend (file : List CsvLine) (rows : List (List ℚ)) : List CsvLine :=
  file ++ (if file.length = 0 then [CsvLine.headerLine] else []) ++
    rows.map CsvLine.dataLine

/-- The number of header rows in the file. -/
def headerCount (file : List CsvLine) : ℕ :=
  file.countP (fun l => match l with
    | CsvLine.headerLine => true
    | CsvLine.dataLine _ => false)

lemma headerCount_append (a b : List CsvLine) :
    headerCount (a ++ b) = headerCount a + headerCount b :=
  List.countP_append _ _ _

lemma headerCount_data (rows : List (List ℚ)) :
    headerCount (rows.map CsvLine.dataLine) = 0 := by
  induction rows with
  | nil => rfl
  | cons r t ih => simp [headerCount, List.countP_cons] at ih ⊢

lemma csv_fold_inv (appendList : List (List (List ℚ))) (file : List CsvLine)
    (h : file = [] ∨ headerCount file = 1) :
    appendList.foldl toCsvAppend file = [] ∨
      headerCount (appendList.foldl toCsvAppend file) = 1 := by
  induction appendList generalizing file with
  | nil => exact h
  | cons rows rest ih =>
    apply ih
    right
    rcases h with h | h
    · subst h
      simp [toCsvAppend, headerCount_append, headerCount_data, headerCount]
    · have hne : file ≠ [] := by
        intro hf
        rw [hf] at h
        simp [headerCount] at h
      have hlen : ¬ file.length = 0 := by
        simpa [List.length_eq_zero] using hne
      simp [toCsvAppend, hlen, headerCount_append, headerCount_data, h]

/-- Claim C10: each append to `results.csv` writes the header row iff the
file is empty at the time of the append, so across all the appends of one
experiment (all repeats of all scenarios, starting from a fresh and hence
empty results file) at most one header row ever appears in the file. -/
theorem csv_header_once (appendList : List (List (List ℚ))) :
    (∀ rows, toCsvAppend [] rows =
      CsvLine.headerLine :: rows.map CsvLine.dataLine) ∧
    (∀ file rows, file ≠ [] →
      toCsvAppend file rows = file ++ rows.map CsvLine.dataLine) ∧
    headerCount (appendList.foldl toCsvAppend []) ≤ 1 := by
  refine ⟨fun rows => by simp [toCsvAppend], fun file rows hne => ?_, ?_⟩
  · have hlen : ¬ file.length = 0 := by simpa [List.length_eq_zero] using hne
    simp [toCsvAppend, hlen]
  · rcases csv_fold_inv appendList [] (Or.inl rfl) with h | h
    · simp [h, headerCount]
    · simp [h]

/-- Claim C10 witness: appending to an already nonempty file adds no header,
and a concrete two-append experiment ends with at most one header row. -/
theorem csv_header_once_witness :
    toCsvAppend [CsvLine.headerLine] [[2]] =
      [CsvLine.headerLine] ++ ([[2]] : List (List ℚ)).map CsvLine.dataLine ∧
    headerCount (([[[1]], [[2]]] : List (List (List ℚ))).foldl toCsvAppend [])
      ≤ 1 :=
  ⟨(csv_header_once [[[1]], [[2]]]).2.1 [CsvLine.headerLine] [[2]] (by simp),
    (csv_header_once [[[1]], [[2]]]).2.2⟩

end Spec2Proof
